import Mathlib

/-!
Verification of the object-runtime semantics demonstrated by the repository
(a GObject-style type/property/signal runtime exercised by a Python demo
script). The runtime itself lives in an external native library, so every
operation below is modelled from the specification of that runtime; the
concrete instantiations (the MyObject type with its int "value" and string
"name" properties and its "value-changed" signal, the stress-test loop)
follow the demonstration script.
-/

namespace ObjRuntime

/-- Error kinds of the runtime, as listed in the error-handling design. -/
inductive RuntimeError where
  | duplicateType
  | unknownParent
  | unknownProperty
  | notReadable
  | notWritable
  | typeMismatch
  | unknownSignal
  | unknownConnection
  | invalidRelease
  | callbackError (msg : String)
deriving DecidableEq, Repr

/-- Value type tags of property values. -/
inductive VType where
  | int
  | str
deriving DecidableEq, Repr

/-- Dynamically typed property values. -/
inductive Value where
  | int (i : Int)
  | str (s : String)
deriving DecidableEq, Repr

/-- Runtime type tag of a value. -/
def Value.typeOf : Value → VType
  | .int _ => .int
  | .str _ => .str

/-- Modelled from the spec: a PropertySpec of the (missing) native runtime:
name, value type, default value and mutability flags. -/
structure PropertySpec where
  name : String
  value_type : VType
  default_value : Value
  readable : Bool
  writable : Bool
deriving DecidableEq, Repr

/-- Modelled from the spec: a TypeDescriptor of the (missing) native runtime:
a type name, an optional reference to the parent TypeDescriptor, the
property specs and the declared signal names. -/
inductive TypeDescriptor where
  | mk (name : String) (parent : Option TypeDescriptor)
       (property_specs : List PropertySpec) (signal_specs : List String)

/-- Name of a type descriptor. -/
def TypeDescriptor.name : TypeDescriptor → String
  | .mk n _ _ _ => n

/-- Parent reference of a type descriptor. -/
def TypeDescriptor.parent : TypeDescriptor → Option TypeDescriptor
  | .mk _ p _ _ => p

/-- Property specs declared directly on a type descriptor. -/
def TypeDescriptor.property_specs : TypeDescriptor → List PropertySpec
  | .mk _ _ ps _ => ps

/-- Signal names declared directly on a type descriptor. -/
def TypeDescriptor.signal_specs : TypeDescriptor → List String
  | .mk _ _ _ ss => ss

/-- Ancestor chain of a type: the type itself followed by its ancestors. -/
def chainDescs : TypeDescriptor → List TypeDescriptor
  | .mk n none ps ss => [.mk n none ps ss]
  | .mk n (some p) ps ss => .mk n (some p) ps ss :: chainDescs p

/-- Proper ancestors of a type (the chain of its parent, if any). -/
def ancestorsOf : TypeDescriptor → List TypeDescriptor
  | .mk _ none _ _ => []
  | .mk _ (some p) _ _ => chainDescs p

/-- Modelled from the spec: resolve merges property specs down the ancestor
chain; ancestor specs are included unless shadowed by a same-named spec at a
descendant. -/
def resolveProps : TypeDescriptor → List PropertySpec
  | .mk _ none ps _ => ps
  | .mk _ (some p) ps _ =>
      ps ++ (resolveProps p).filter (fun q => !(ps.any (fun r => r.name == q.name)))

/-- Modelled from the spec: resolved signal names down the ancestor chain. -/
def resolveSignals : TypeDescriptor → List String
  | .mk _ none _ ss => ss
  | .mk _ (some p) _ ss => ss ++ (resolveSignals p).filter (fun q => !(ss.contains q))

/-- Resolved spec for a property name, searching the merged spec set. -/
def findSpec (td : TypeDescriptor) (n : String) : Option PropertySpec :=
  (resolveProps td).find? (fun sp => sp.name == n)

/-- Modelled from the spec: an Instance of the (missing) native runtime: a
reference to its TypeDescriptor, a reference count, the property store and
the ordered subscriber list (pairs of connection id and signal name, in
connection order). -/
structure Inst where
  type : TypeDescriptor
  ref_count : Nat
  properties : List (String × Value)
  subscribers : List (Nat × String)
  next_conn_id : Nat

/-- Behavior of subscriber callbacks: a callback (identified by its
connection id) receives the instance and the emitted value and either
succeeds or raises an error. -/
def Behavior : Type := Nat → Inst → Value → Except String Unit

/-- Callback behavior in which no subscriber ever raises. -/
def pureBeh : Behavior := fun _ _ _ => .ok ()

/-- Look up a stored property value by name. -/
def lookupProp (ps : List (String × Value)) (n : String) : Option Value :=
  (ps.find? (fun e => e.1 == n)).map (fun e => e.2)

/-- Store a property value, replacing an existing entry of the same name. -/
def storeProp : List (String × Value) → String → Value → List (String × Value)
  | [], n, v => [(n, v)]
  | (k, w) :: rest, n, v =>
      if k == n then (k, v) :: rest else (k, w) :: storeProp rest n v

/-- Ordered connection ids currently subscribed to a signal. -/
def subscribersOf (inst : Inst) (s : String) : List Nat :=
  (inst.subscribers.filter (fun e => e.2 == s)).map (fun e => e.1)

/-- One emission: the signal name, the payload, and the connection ids
invoked, in connection order. -/
structure EmitEvent where
  signal : String
  payload : Value
  invoked : List Nat
deriving DecidableEq, Repr

/-- Modelled from the spec: run the subscriber callbacks of one emission in
connection order; an error raised by a callback is not caught and aborts the
run. -/
def runCallbacks (beh : Behavior) (inst : Inst) (payload : Value) :
    List Nat → Except RuntimeError Unit
  | [] => .ok ()
  | c :: rest =>
      match beh c inst payload with
      | .ok _ => runCallbacks beh inst payload rest
      | .error m => .error (.callbackError m)

/-- Modelled from the spec: emit of the (missing) Signal Dispatcher: invokes
every current subscriber of the signal, in connection order, passing the
instance and the payload; callback errors propagate to the emitter. -/
def emit (beh : Behavior) (inst : Inst) (s : String) (payload : Value) :
    Except RuntimeError EmitEvent :=
  match runCallbacks beh inst payload (subscribersOf inst s) with
  | .ok _ => .ok ⟨s, payload, subscribersOf inst s⟩
  | .error e => .error e

/-- Modelled from the spec: get of the (missing) Property Store: fails with
UnknownProperty if the name is absent from the resolved specs, NotReadable
if write-only; the stored value, defaulting to the spec default. -/
def get (inst : Inst) (n : String) : Except RuntimeError Value :=
  match findSpec inst.type n with
  | none => .error .unknownProperty
  | some sp =>
      if !sp.readable then .error .notReadable
      else .ok ((lookupProp inst.properties n).getD sp.default_value)

/-- Modelled from the spec: set of the (missing) Property Store: validates
name, mutability and value type; if the new value differs from the stored
value it stores it and emits the name-changed signal with the new value; if
equal, nothing is stored and nothing is emitted. Returns the updated
instance and the list of emissions performed. -/
def set (beh : Behavior) (inst : Inst) (n : String) (v : Value) :
    Except RuntimeError (Inst × List EmitEvent) :=
  match findSpec inst.type n with
  | none => .error .unknownProperty
  | some sp =>
      if !sp.writable then .error .notWritable
      else if v.typeOf ≠ sp.value_type then .error .typeMismatch
      else
        let old := (lookupProp inst.properties n).getD sp.default_value
        if v = old then .ok (inst, [])
        else
          let inst2 : Inst := { inst with properties := storeProp inst.properties n v }
          match emit beh inst2 (n ++ "-changed") v with
          | .ok ev => .ok (inst2, [ev])
          | .error e => .error e

/-- Modelled from the spec: connect of the (missing) Signal Dispatcher:
fails with UnknownSignal if the signal is not declared for the instance's
type; appends the subscriber to the ordered list, returning a fresh
connection id. -/
def connect (inst : Inst) (s : String) : Except RuntimeError (Nat × Inst) :=
  if (resolveSignals inst.type).contains s then
    .ok (inst.next_conn_id,
         { inst with
             subscribers := inst.subscribers ++ [(inst.next_conn_id, s)],
             next_conn_id := inst.next_conn_id + 1 })
  else .error .unknownSignal

/-- Remove exactly one subscriber entry by connection id. -/
def removeConn : List (Nat × String) → Nat → Option (List (Nat × String))
  | [], _ => none
  | e :: rest, c =>
      if e.1 == c then some rest
      else (removeConn rest c).map (fun l => e :: l)

/-- Modelled from the spec: disconnect of the (missing) Signal Dispatcher:
removes exactly one subscriber entry; fails with UnknownConnection if the id
is not found. -/
def disconnect (inst : Inst) (c : Nat) : Except RuntimeError Inst :=
  match removeConn inst.subscribers c with
  | some l => .ok { inst with subscribers := l }
  | none => .error .unknownConnection

/-- Modelled from the spec: construct of the (missing) Type Registry:
allocates a new Instance with ref_count 1, validates every initial key
against resolved specs (UnknownProperty otherwise), applies defaults for
unset writable properties and emits no change signals (empty emission
list). -/
def construct (td : TypeDescriptor) (inits : List (String × Value)) :
    Except RuntimeError (Inst × List EmitEvent) :=
  if inits.all (fun e => (findSpec td e.1).isSome) then
    let defaults :=
      ((resolveProps td).filter
        (fun sp => sp.writable && !(inits.any (fun e => e.1 == sp.name)))).map
        (fun sp => (sp.name, sp.default_value))
    .ok ({ type := td, ref_count := 1, properties := inits ++ defaults,
           subscribers := [], next_conn_id := 0 }, [])
  else .error .unknownProperty

/-- Modelled from the spec: is_instance_of of the (missing) Type Registry:
true if the instance's type or any ancestor has the queried name. -/
def is_instance_of (inst : Inst) (t : String) : Bool :=
  (chainDescs inst.type).any (fun d => d.name == t)

/-- Modelled from the spec: retain increments the reference count and
returns the same instance. -/
def retain (inst : Inst) : Inst := { inst with ref_count := inst.ref_count + 1 }

/-- Modelled from the spec: refcount introspection. -/
def refcount (inst : Inst) : Nat := inst.ref_count

/-- Modelled from the spec: release decrements the reference count; reaching
zero destroys the instance, clearing subscribers and then property storage;
releasing an already destroyed instance fails with InvalidRelease. -/
def release (inst : Inst) : Except RuntimeError Inst :=
  match inst.ref_count with
  | 0 => .error .invalidRelease
  | 1 => .ok { inst with ref_count := 0, subscribers := [], properties := [] }
  | m + 2 => .ok { inst with ref_count := m + 1 }

/-- Lifetime operations for reference-count sequences. -/
inductive LifeOp where
  | retainOp
  | releaseOp
deriving DecidableEq, Repr

/-- Apply a sequence of retain and release calls to an instance. -/
def applyOps : Inst → List LifeOp → Except RuntimeError Inst
  | inst, [] => .ok inst
  | inst, .retainOp :: rest => applyOps (retain inst) rest
  | inst, .releaseOp :: rest =>
      match release inst with
      | .ok inst2 => applyOps inst2 rest
      | .error e => .error e

/-- Number of retain calls in a sequence. -/
def countRetains (ops : List LifeOp) : Nat := ops.count .retainOp

/-- Number of release calls in a sequence. -/
def countReleases (ops : List LifeOp) : Nat := ops.count .releaseOp

/-- The integer "value" property of MyObject, default 0. -/
def value_spec : PropertySpec :=
  { name := "value", value_type := .int, default_value := .int 0,
    readable := true, writable := true }

/-- The string "name" property of MyObject, default empty. -/
def name_spec : PropertySpec :=
  { name := "name", value_type := .str, default_value := .str "",
    readable := true, writable := true }

/-- The GObject base type: no parent, no properties, no signals. -/
def gobject_type : TypeDescriptor := .mk "GObject" none [] []

/-- The MyObject type of the demonstration: parent GObject, properties
value and name, signal value-changed. -/
def my_object_type : TypeDescriptor :=
  .mk "MyObject" (some gobject_type) [value_spec, name_spec] ["value-changed"]

/-- Convenience constructor new_with_value: construct with the value
property preset. -/
def new_with_value (i : Int) : Except RuntimeError (Inst × List EmitEvent) :=
  construct my_object_type [("value", .int i)]

/-- Convenience accessor get_value. -/
def get_value (inst : Inst) : Except RuntimeError Value := get inst "value"

/-- Convenience mutator set_value. -/
def set_value (beh : Behavior) (inst : Inst) (i : Int) :
    Except RuntimeError (Inst × List EmitEvent) :=
  set beh inst "value" (.int i)

/-- Convenience mutator set_name. -/
def set_name (beh : Behavior) (inst : Inst) (s : String) :
    Except RuntimeError (Inst × List EmitEvent) :=
  set beh inst "name" (.str s)

/-- Modelled from the spec: the increment convenience mutator is defined as
setting the property to its current value plus one. -/
def increment (beh : Behavior) (inst : Inst) :
    Except RuntimeError (Inst × List EmitEvent) :=
  match get inst "value" with
  | .error e => .error e
  | .ok (.int i) => set beh inst "value" (.int (i + 1))
  | .ok (.str _) => .error .typeMismatch

/-- Modelled from the spec: the decrement convenience mutator is defined as
setting the property to its current value minus one. -/
def decrement (beh : Behavior) (inst : Inst) :
    Except RuntimeError (Inst × List EmitEvent) :=
  match get inst "value" with
  | .error e => .error e
  | .ok (.int i) => set beh inst "value" (.int (i - 1))
  | .ok (.str _) => .error .typeMismatch

/-- One object of the stress test: created via new_with_value i and then
given its name, as the creation loop of the script does. -/
def stress_object (i : Nat) : Except RuntimeError Inst :=
  match new_with_value (Int.ofNat i) with
  | .error e => .error e
  | .ok r =>
      match set_name pureBeh r.1 ("Object #" ++ toString i) with
      | .error e => .error e
      | .ok r2 => .ok r2.1

/-- Creation loop of the stress test: one object per listed initial value. -/
def create_objects : List Nat → Except RuntimeError (List Inst)
  | [] => .ok []
  | i :: rest =>
      match stress_object i with
      | .error e => .error e
      | .ok o =>
          match create_objects rest with
          | .error e => .error e
          | .ok os => .ok (o :: os)

/-- Second loop of the stress test: increment each object once and add its
resulting value to the running total. -/
def stress_loop : List Inst → Int → Except RuntimeError Int
  | [], acc => .ok acc
  | o :: rest, acc =>
      match increment pureBeh o with
      | .error e => .error e
      | .ok r =>
          match get_value r.1 with
          | .error e => .error e
          | .ok (.int k) => stress_loop rest (acc + k)
          | .ok (.str _) => .error .typeMismatch

/-- The stress test of the script: create n objects with values 0 to n-1,
then increment each once and sum their values. -/
def stress_test (n : Nat) : Except RuntimeError Int :=
  match create_objects (List.range n) with
  | .error e => .error e
  | .ok objs => stress_loop objs 0

/-! Helper lemmas about lists, the property store and the dispatcher. -/

theorem find?_filter_of_imp {α : Type} (p q : α → Bool) (l : List α)
    (h : ∀ x ∈ l, p x = true → q x = true) :
    (l.filter q).find? p = l.find? p := by
  induction l with
  | nil => rfl
  | cons y l ih =>
      by_cases hq : q y = true
      · rw [List.filter_cons_of_pos hq]
        by_cases hp : p y = true
        · rw [List.find?_cons_of_pos _ hp, List.find?_cons_of_pos _ hp]
        · rw [List.find?_cons_of_neg _ (by simpa using hp),
              List.find?_cons_of_neg _ (by simpa using hp)]
          exact ih (fun x hx => h x (List.mem_cons_of_mem _ hx))
      · have hp : p y = false := by
          by_contra hc
          exact hq (h y (List.mem_cons_self _ _) (by simpa using hc))
        rw [List.filter_cons_of_neg (by simpa using hq),
            List.find?_cons_of_neg _ (by simp [hp])]
        exact ih (fun x hx => h x (List.mem_cons_of_mem _ hx))

theorem find?_filter_of_found {α : Type} (p q : α → Bool) (l : List α) (x : α)
    (hfind : l.find? p = some x) (hq : q x = true) :
    (l.filter q).find? p = some x := by
  induction l with
  | nil => simp at hfind
  | cons y l ih =>
      by_cases hp : p y = true
      · rw [List.find?_cons_of_pos _ hp] at hfind
        injection hfind with hxy
        subst hxy
        rw [List.filter_cons_of_pos hq, List.find?_cons_of_pos _ hp]
      · rw [List.find?_cons_of_neg _ (by simpa using hp)] at hfind
        by_cases hqy : q y = true
        · rw [List.filter_cons_of_pos hqy,
              List.find?_cons_of_neg _ (by simpa using hp)]
          exact ih hfind
        · rw [List.filter_cons_of_neg (by simpa using hqy)]
          exact ih hfind

theorem lookupProp_storeProp_same (ps : List (String × Value)) (n : String) (v : Value) :
    lookupProp (storeProp ps n v) n = some v := by
  induction ps with
  | nil => simp [storeProp, lookupProp]
  | cons e ps ih =>
      rcases e with ⟨k, w⟩
      by_cases hk : k == n
      · simp [storeProp, hk, lookupProp, List.find?_cons_of_pos, hk]
      · have hk2 : (k == n) = false := by simpa using hk
        simp only [storeProp, hk2, Bool.false_eq_true, if_false]
        simpa [lookupProp, List.find?_cons_of_neg, hk2] using ih

theorem lookupProp_storeProp_other (ps : List (String × Value)) (n m : String)
    (v : Value) (hnm : (n == m) = false) :
    lookupProp (storeProp ps n v) m = lookupProp ps m := by
  induction ps with
  | nil => simp [storeProp, lookupProp, hnm]
  | cons e ps ih =>
      rcases e with ⟨k, w⟩
      by_cases hk : k == n
      · have hkn : k = n := by simpa using hk
        subst hkn
        simp [storeProp, lookupProp, hnm]
      · have hk2 : (k == n) = false := by simpa using hk
        by_cases hkm : k == m
        · simp [storeProp, hk2, lookupProp, hkm]
        · have hkm2 : (k == m) = false := by simpa using hkm
          simpa [storeProp, hk2, lookupProp, hkm2] using ih

theorem runCallbacks_pure (inst : Inst) (payload : Value) (cs : List Nat) :
    runCallbacks pureBeh inst payload cs = .ok () := by
  induction cs with
  | nil => rfl
  | cons c cs ih => simpa [runCallbacks, pureBeh] using ih

theorem emit_pure (inst : Inst) (s : String) (payload : Value) :
    emit pureBeh inst s payload = .ok ⟨s, payload, subscribersOf inst s⟩ := by
  simp [emit, runCallbacks_pure]

/-- Characterization of set on the equal-value branch: nothing stored,
nothing emitted, for any callback behavior. -/
theorem set_same (beh : Behavior) (inst : Inst) (n : String) (v : Value)
    (sp : PropertySpec) (hfind : findSpec inst.type n = some sp)
    (hw : sp.writable = true) (ht : v.typeOf = sp.value_type)
    (heq : (lookupProp inst.properties n).getD sp.default_value = v) :
    set beh inst n v = .ok (inst, []) := by
  simp [set, hfind, hw, ht, heq]

/-- Characterization of set on the changed-value branch with pure callbacks:
the value is stored and exactly one emission of the name-changed signal with
the new value is performed. -/
theorem set_diff_pure (inst : Inst) (n : String) (v : Value)
    (sp : PropertySpec) (hfind : findSpec inst.type n = some sp)
    (hw : sp.writable = true) (ht : v.typeOf = sp.value_type)
    (hne : v ≠ (lookupProp inst.properties n).getD sp.default_value) :
    set pureBeh inst n v =
      .ok ({ inst with properties := storeProp inst.properties n v },
           [⟨n ++ "-changed", v,
             subscribersOf { inst with properties := storeProp inst.properties n v }
               (n ++ "-changed")⟩]) := by
  simp [set, hfind, hw, ht, hne, emit_pure]

/-- With pure callbacks, set never fails once name, mutability and type
checks pass. -/
theorem set_pure_isOk (inst : Inst) (n : String) (v : Value)
    (sp : PropertySpec) (hfind : findSpec inst.type n = some sp)
    (hw : sp.writable = true) (ht : v.typeOf = sp.value_type) :
    (set pureBeh inst n v).isOk = true := by
  by_cases heq : (lookupProp inst.properties n).getD sp.default_value = v
  · rw [set_same pureBeh inst n v sp hfind hw ht heq]; rfl
  · rw [set_diff_pure inst n v sp hfind hw ht (fun h => heq h.symm)]; rfl

theorem self_mem_chain (td : TypeDescriptor) : td ∈ chainDescs td := by
  rcases td with ⟨n, p, ps, ss⟩
  cases p <;> simp [chainDescs]

theorem chain_eq_cons (td : TypeDescriptor) : chainDescs td = td :: ancestorsOf td := by
  rcases td with ⟨n, p, ps, ss⟩
  cases p <;> simp [chainDescs, ancestorsOf]

theorem chain_sub {a b : TypeDescriptor} (h : b ∈ chainDescs a) :
    ∀ x, x ∈ chainDescs b → x ∈ chainDescs a := by
  induction a using chainDescs.induct with
  | case1 n ps ss =>
      simp [chainDescs] at h
      subst h
      intro x hx; exact hx
  | case2 n p ps ss ih =>
      rw [chainDescs] at h ⊢
      rcases List.mem_cons.mp h with h1 | h2
      · subst h1; intro x hx; rw [chainDescs] at hx; exact hx
      · intro x hx
        exact List.mem_cons_of_mem _ (ih h2 x hx)

theorem applyOps_refcount :
    ∀ (ops : List LifeOp) (inst fin : Inst), applyOps inst ops = .ok fin →
      (refcount fin : Int) = refcount inst + countRetains ops - countReleases ops := by
  intro ops
  induction ops with
  | nil =>
      intro inst fin h
      simp [applyOps] at h
      subst h
      simp [countRetains, countReleases]
  | cons op rest ih =>
      intro inst fin h
      cases op with
      | retainOp =>
          rw [applyOps] at h
          have := ih (retain inst) fin h
          simp [countRetains, countReleases, List.count_cons, retain, refcount] at this ⊢
          omega
      | releaseOp =>
          rw [applyOps] at h
          rcases hr : release inst with e | inst2
          · rw [hr] at h; cases h
          · rw [hr] at h
            have h2 := ih inst2 fin h
            have hcount : (refcount inst2 : Int) = refcount inst - 1 ∧ 1 ≤ inst.ref_count := by
              unfold release at hr
              rcases hrc : inst.ref_count with _ | m
              · rw [hrc] at hr; cases hr
              · rcases m with _ | m2
                · rw [hrc] at hr
                  injection hr with hr2
                  subst hr2
                  simp [refcount, hrc]
                · rw [hrc] at hr
                  injection hr with hr2
                  subst hr2
                  simp [refcount, hrc]
            simp [countRetains, countReleases, List.count_cons, refcount] at h2 hcount ⊢
            omega

/-- C1: set with a value equal to the stored one (for any callback behavior)
leaves the instance unchanged and performs no emission; set with a different
value stores it and performs exactly one emission of the name-changed signal
carrying the new value; an immediately repeated set of the same value then
performs no further emission, so two consecutive equal set calls emit
exactly once in total. -/
theorem set_change_detection :
    ∀ (inst : Inst) (n : String) (v : Value) (sp : PropertySpec),
      findSpec inst.type n = some sp → sp.writable = true →
      v.typeOf = sp.value_type →
      ((∀ beh : Behavior,
          (lookupProp inst.properties n).getD sp.default_value = v →
          set beh inst n v = .ok (inst, [])) ∧
       (v ≠ (lookupProp inst.properties n).getD sp.default_value →
          ∃ (inst2 : Inst) (ev : EmitEvent),
            set pureBeh inst n v = .ok (inst2, [ev]) ∧
            lookupProp inst2.properties n = some v ∧
            ev.signal = n ++ "-changed" ∧ ev.payload = v ∧
            set pureBeh inst2 n v = .ok (inst2, []))) := by
  intro inst n v sp hfind hw ht
  constructor
  · intro beh heq
    exact set_same beh inst n v sp hfind hw ht heq
  · intro hne
    refine ⟨{ inst with properties := storeProp inst.properties n v }, _,
            set_diff_pure inst n v sp hfind hw ht hne, ?_, rfl, rfl, ?_⟩
    · exact lookupProp_storeProp_same inst.properties n v
    · refine set_same pureBeh _ n v sp ?_ hw ht ?_
      · exact hfind
      · show (lookupProp (storeProp inst.properties n v) n).getD sp.default_value = v
        rw [lookupProp_storeProp_same]
        rfl

theorem set_change_detection_witness :
    (set pureBeh ⟨my_object_type, 1, [("value", .int 10), ("name", .str "")],
        [(0, "value-changed")], 1⟩ "value" (.int 10) =
      .ok (⟨my_object_type, 1, [("value", .int 10), ("name", .str "")],
        [(0, "value-changed")], 1⟩, [])) ∧
    (∃ (inst2 : Inst) (ev : EmitEvent),
      set pureBeh ⟨my_object_type, 1, [("value", .int 10), ("name", .str "")],
          [(0, "value-changed")], 1⟩ "value" (.int 20) = .ok (inst2, [ev]) ∧
      lookupProp inst2.properties "value" = some (.int 20) ∧
      ev.signal = "value" ++ "-changed" ∧ ev.payload = .int 20 ∧
      set pureBeh inst2 "value" (.int 20) = .ok (inst2, [])) := by
  constructor
  · exact (set_change_detection ⟨my_object_type, 1,
        [("value", .int 10), ("name", .str "")], [(0, "value-changed")], 1⟩
        "value" (.int 10) value_spec rfl rfl rfl).1 pureBeh rfl
  · exact (set_change_detection ⟨my_object_type, 1,
        [("value", .int 10), ("name", .str "")], [(0, "value-changed")], 1⟩
        "value" (.int 20) value_spec rfl rfl rfl).2 (by decide)

/-- C2: a successfully executed sequence of N retains and M releases starting
from a fresh instance ends with reference count 1 + N - M; a release of a
count-1 instance destroys it, clearing subscribers and property storage; a
release of an already destroyed (count-0) instance fails with
InvalidRelease. -/
theorem refcount_retain_release :
    (∀ (inst fin : Inst) (ops : List LifeOp), refcount inst = 1 →
       countReleases ops ≤ countRetains ops → applyOps inst ops = .ok fin →
       (refcount fin : Int) = 1 + countRetains ops - countReleases ops) ∧
    (∀ inst : Inst, refcount inst = 1 →
       release inst =
         .ok { inst with ref_count := 0, subscribers := [], properties := [] }) ∧
    (∀ inst : Inst, refcount inst = 0 → release inst = .error .invalidRelease) := by
  refine ⟨?_, ?_, ?_⟩
  · intro inst fin ops h1 _ happ
    have := applyOps_refcount ops inst fin happ
    rw [h1] at this
    simpa using this
  · intro inst h1
    unfold release
    rw [show inst.ref_count = 1 from h1]
  · intro inst h0
    unfold release
    rw [show inst.ref_count = 0 from h0]

theorem refcount_retain_release_witness :
    ((refcount (⟨my_object_type, 2, [], [], 0⟩ : Inst) : Int) =
       1 + countRetains [.retainOp, .retainOp, .releaseOp]
         - countReleases [.retainOp, .retainOp, .releaseOp]) ∧
    (release (⟨my_object_type, 1, [("value", .int 3)], [(0, "value-changed")], 1⟩ : Inst) =
       .ok ⟨my_object_type, 0, [], [], 1⟩) ∧
    (release (⟨my_object_type, 0, [], [], 1⟩ : Inst) = .error .invalidRelease) := by
  refine ⟨?_, ?_, ?_⟩
  · exact refcount_retain_release.1 ⟨my_object_type, 1, [], [], 0⟩
      ⟨my_object_type, 2, [], [], 0⟩ [.retainOp, .retainOp, .releaseOp] rfl
      (by decide) rfl
  · exact refcount_retain_release.2.1
      ⟨my_object_type, 1, [("value", .int 3)], [(0, "value-changed")], 1⟩ rfl
  · exact refcount_retain_release.2.2 ⟨my_object_type, 0, [], [], 1⟩ rfl

theorem runCallbacks_error (beh : Behavior) (inst : Inst) (payload : Value) :
    ∀ (pre rest : List Nat) (c : Nat) (m : String),
      (∀ d ∈ pre, beh d inst payload = .ok ()) →
      beh c inst payload = .error m →
      runCallbacks beh inst payload (pre ++ c :: rest) = .error (.callbackError m) := by
  intro pre
  induction pre with
  | nil =>
      intro rest c m _ hc
      simp [runCallbacks, hc]
  | cons d pre ih =>
      intro rest c m hpre hc
      have hd : beh d inst payload = .ok () := hpre d (List.mem_cons_self _ _)
      rw [List.cons_append, runCallbacks, hd]
      exact ih rest c m (fun x hx => hpre x (List.mem_cons_of_mem _ hx)) hc

/-- C3: with callbacks that do not raise, emit invokes exactly the current
subscribers of the signal, in connection order, passing the payload; in the
two-handler scenario, connecting A then B to a declared signal of a
subscriber-free instance gives distinct connection ids and a single emission
invokes A before B, each exactly once. -/
theorem emit_connection_order :
    (∀ (inst : Inst) (s : String) (payload : Value),
       emit pureBeh inst s payload = .ok ⟨s, payload, subscribersOf inst s⟩) ∧
    (∀ (inst : Inst) (s : String) (payload : Value),
       inst.subscribers = [] → (resolveSignals inst.type).contains s = true →
       ∃ (a : Nat) (i1 : Inst) (b : Nat) (i2 : Inst),
         connect inst s = .ok (a, i1) ∧ connect i1 s = .ok (b, i2) ∧ a ≠ b ∧
         emit pureBeh i2 s payload = .ok ⟨s, payload, [a, b]⟩ ∧
         [a, b].count a = 1 ∧ [a, b].count b = 1) := by
  constructor
  · intro inst s payload
    exact emit_pure inst s payload
  · intro inst s payload hsubs hc
    refine ⟨inst.next_conn_id,
      { inst with subscribers := inst.subscribers ++ [(inst.next_conn_id, s)],
                  next_conn_id := inst.next_conn_id + 1 },
      inst.next_conn_id + 1,
      { inst with
          subscribers :=
            (inst.subscribers ++ [(inst.next_conn_id, s)]) ++ [(inst.next_conn_id + 1, s)],
          next_conn_id := inst.next_conn_id + 2 },
      ?_, ?_, ?_, ?_, ?_, ?_⟩
    · simp [connect, hc]
      simpa using hc
    · simp [connect, hc]
      simpa using hc
    · omega
    · rw [emit_pure]
      have h2 : subscribersOf
          { inst with
              subscribers :=
                (inst.subscribers ++ [(inst.next_conn_id, s)]) ++ [(inst.next_conn_id + 1, s)],
              next_conn_id := inst.next_conn_id + 2 } s
          = [inst.next_conn_id, inst.next_conn_id + 1] := by
        simp [subscribersOf, hsubs]
      rw [h2]
    · simp [List.count_cons]
    · simp [List.count_cons]

theorem emit_connection_order_witness :
    ∃ (a : Nat) (i1 : Inst) (b : Nat) (i2 : Inst),
      connect ⟨my_object_type, 1, [("value", .int 10), ("name", .str "")], [], 0⟩
        "value-changed" = .ok (a, i1) ∧
      connect i1 "value-changed" = .ok (b, i2) ∧ a ≠ b ∧
      emit pureBeh i2 "value-changed" (.int 20) = .ok ⟨"value-changed", .int 20, [a, b]⟩ ∧
      [a, b].count a = 1 ∧ [a, b].count b = 1 := by
  exact emit_connection_order.2
    ⟨my_object_type, 1, [("value", .int 10), ("name", .str "")], [], 0⟩
    "value-changed" (.int 20) rfl rfl

/-- C9: an error raised by a subscriber callback during emit is not caught by
the dispatcher: once the subscribers before it have succeeded, emit fails
with that callback's error; and set does not catch it either: when the
changed-value branch's emission fails, set fails with exactly the same
error, surfacing it to the original caller. -/
theorem subscriber_error_propagation :
    (∀ (beh : Behavior) (inst : Inst) (s : String) (payload : Value)
       (pre rest : List Nat) (c : Nat) (m : String),
       subscribersOf inst s = pre ++ c :: rest →
       (∀ d ∈ pre, beh d inst payload = .ok ()) →
       beh c inst payload = .error m →
       emit beh inst s payload = .error (.callbackError m)) ∧
    (∀ (beh : Behavior) (inst : Inst) (n : String) (v : Value)
       (sp : PropertySpec) (e : RuntimeError),
       findSpec inst.type n = some sp → sp.writable = true →
       v.typeOf = sp.value_type →
       v ≠ (lookupProp inst.properties n).getD sp.default_value →
       emit beh { inst with properties := storeProp inst.properties n v }
         (n ++ "-changed") v = .error e →
       set beh inst n v = .error e) := by
  constructor
  · intro beh inst s payload pre rest c m hsubs hpre hc
    unfold emit
    rw [hsubs, runCallbacks_error beh inst payload pre rest c m hpre hc]
  · intro beh inst n v sp e hfind hw ht hne hemit
    simp [set, hfind, hw, ht, hne, hemit]

theorem subscriber_error_propagation_witness :
    (emit (fun _ _ _ => .error "boom")
       ⟨my_object_type, 1, [("value", .int 10), ("name", .str "")],
        [(0, "value-changed")], 1⟩ "value-changed" (.int 20) =
      .error (.callbackError "boom")) ∧
    (set (fun _ _ _ => .error "boom")
       ⟨my_object_type, 1, [("value", .int 10), ("name", .str "")],
        [(0, "value-changed")], 1⟩ "value" (.int 20) =
      .error (.callbackError "boom")) := by
  constructor
  · exact subscriber_error_propagation.1 (fun _ _ _ => .error "boom")
      ⟨my_object_type, 1, [("value", .int 10), ("name", .str "")],
       [(0, "value-changed")], 1⟩ "value-changed" (.int 20)
      [] [] 0 "boom" rfl (by simp) rfl
  · exact subscriber_error_propagation.2 (fun _ _ _ => .error "boom")
      ⟨my_object_type, 1, [("value", .int 10), ("name", .str "")],
       [(0, "value-changed")], 1⟩ "value" (.int 20) value_spec
      (.callbackError "boom") rfl rfl rfl (by decide) rfl

/-- A test subtype registered with parent MyObject, declaring nothing of its
own; used to exercise inherited property resolution and instance-of
queries. -/
def my_derived_type : TypeDescriptor := .mk "MyDerived" (some my_object_type) [] []

theorem name_mem_resolve (td : TypeDescriptor) (n : String) :
    (∃ sp ∈ resolveProps td, sp.name = n) ↔
    (∃ d ∈ chainDescs td, ∃ sp ∈ d.property_specs, sp.name = n) := by
  induction td using resolveProps.induct with
  | case1 nm ps ss =>
      simp [resolveProps, chainDescs, TypeDescriptor.property_specs]
  | case2 nm p ps ss ih =>
      constructor
      · rintro ⟨sp, hsp, hname⟩
        rw [resolveProps] at hsp
        rcases List.mem_append.mp hsp with h1 | h2
        · exact ⟨.mk nm (some p) ps ss, by rw [chainDescs]; exact List.mem_cons_self _ _,
                 sp, h1, hname⟩
        · have hsp2 := List.mem_of_mem_filter h2
          rcases ih.mp ⟨sp, hsp2, hname⟩ with ⟨d, hd, sp2, hsp3, hn3⟩
          exact ⟨d, by rw [chainDescs]; exact List.mem_cons_of_mem _ hd, sp2, hsp3, hn3⟩
      · rintro ⟨d, hd, sp, hsp, hname⟩
        rw [chainDescs] at hd
        rcases List.mem_cons.mp hd with h1 | h2
        · subst h1
          exact ⟨sp, by rw [resolveProps]; exact List.mem_append_left _ hsp, hname⟩
        · rcases ih.mpr ⟨d, h2, sp, hsp, hname⟩ with ⟨sp2, hsp2, hn2⟩
          by_cases hsh : (ps.any (fun r => r.name == sp2.name)) = true
          · rcases List.any_eq_true.mp hsh with ⟨r, hr, hrb⟩
            have hrn : r.name = sp2.name := by simpa using hrb
            exact ⟨r, by rw [resolveProps]; exact List.mem_append_left _ hr, hrn.trans hn2⟩
          · have hmem : sp2 ∈ (resolveProps p).filter
                (fun q => !(ps.any (fun r => r.name == q.name))) :=
              List.mem_filter.mpr ⟨hsp2, by simpa using hsh⟩
            exact ⟨sp2, by rw [resolveProps]; exact List.mem_append_right _ hmem, hn2⟩

theorem findSpec_none_iff (td : TypeDescriptor) (n : String) :
    findSpec td n = none ↔
      ∀ d ∈ chainDescs td, ∀ sp ∈ d.property_specs, sp.name ≠ n := by
  rw [findSpec, List.find?_eq_none]
  constructor
  · intro h d hd sp hsp hn
    rcases (name_mem_resolve td n).mpr ⟨d, hd, sp, hsp, hn⟩ with ⟨sp2, hsp2, hn2⟩
    exact h sp2 hsp2 (by simpa using hn2)
  · intro h sp hsp hb
    have hn : sp.name = n := by simpa using hb
    rcases (name_mem_resolve td n).mp ⟨sp, hsp, hn⟩ with ⟨d, hd, sp2, hsp2, hn2⟩
    exact h d hd sp2 hsp2 hn2

theorem runCallbacks_error_shape (beh : Behavior) (inst : Inst) (payload : Value) :
    ∀ (cs : List Nat) (e : RuntimeError),
      runCallbacks beh inst payload cs = .error e → ∃ m, e = .callbackError m := by
  intro cs
  induction cs with
  | nil => intro e h; cases h
  | cons c cs ih =>
      intro e h
      rw [runCallbacks] at h
      rcases hb : beh c inst payload with m | u
      · rw [hb] at h
        injection h with h2
        exact ⟨m, h2.symm⟩
      · rw [hb] at h
        exact ih e h

theorem emit_error_shape (beh : Behavior) (inst : Inst) (s : String)
    (payload : Value) (e : RuntimeError) (h : emit beh inst s payload = .error e) :
    ∃ m, e = .callbackError m := by
  rw [emit] at h
  rcases hrc : runCallbacks beh inst payload (subscribersOf inst s) with e2 | u
  · rw [hrc] at h
    injection h with h2
    subst h2
    exact runCallbacks_error_shape beh inst payload _ _ hrc
  · rw [hrc] at h
    cases h

/-- C5: is_instance_of is reflexive (an instance reports true for its own
type name) and transitive along the ancestor chain; it returns true exactly
when the queried name is the instance's own type name or the name of an
ancestor; in particular an instance of a type registered with parent P
reports true for both its own name and the name of P. -/
theorem is_instance_of_spec :
    (∀ inst : Inst, is_instance_of inst inst.type.name = true) ∧
    (∀ (a b : TypeDescriptor) (t : String), b ∈ chainDescs a →
       ((chainDescs b).any (fun d => d.name == t)) = true →
       ((chainDescs a).any (fun d => d.name == t)) = true) ∧
    (∀ (inst : Inst) (t : String),
       is_instance_of inst t = true ↔
         (inst.type.name = t ∨
          ((ancestorsOf inst.type).any (fun d => d.name == t)) = true)) ∧
    (∀ (inst : Inst) (p : TypeDescriptor), inst.type.parent = some p →
       is_instance_of inst inst.type.name = true ∧
       is_instance_of inst p.name = true) := by
  have refl0 : ∀ inst : Inst, is_instance_of inst inst.type.name = true := by
    intro inst
    exact List.any_eq_true.mpr ⟨inst.type, self_mem_chain _, by simp⟩
  refine ⟨refl0, ?_, ?_, ?_⟩
  · intro a b t hb hany
    rcases List.any_eq_true.mp hany with ⟨d, hd, pd⟩
    exact List.any_eq_true.mpr ⟨d, chain_sub hb d hd, pd⟩
  · intro inst t
    simp only [is_instance_of]
    rw [chain_eq_cons]
    simp [List.any_cons]
  · intro inst p hp
    refine ⟨refl0 inst, ?_⟩
    apply List.any_eq_true.mpr
    refine ⟨p, ?_, by simp⟩
    rcases htd : inst.type with ⟨n, pp, ps, ss⟩
    rw [htd] at hp
    simp only [TypeDescriptor.parent] at hp
    subst hp
    rw [chainDescs]
    exact List.mem_cons_of_mem _ (self_mem_chain p)

theorem is_instance_of_spec_witness :
    (is_instance_of ⟨my_object_type, 1, [], [], 0⟩ "MyObject" = true ∧
     is_instance_of ⟨my_object_type, 1, [], [], 0⟩ "GObject" = true) ∧
    ((chainDescs my_object_type).any (fun d => d.name == "GObject") = true) := by
  constructor
  · exact is_instance_of_spec.2.2.2 ⟨my_object_type, 1, [], [], 0⟩ gobject_type rfl
  · exact is_instance_of_spec.2.1 my_object_type gobject_type "GObject"
      (List.mem_cons_of_mem _ (List.mem_cons_self _ _)) rfl

/-- C6: get (and set, for any callback behavior) fails with UnknownProperty
exactly when the property name is declared nowhere along the entire ancestor
chain; a subtype whose own specs do not shadow a name resolves it to the
parent's resolved spec; and once a readable, writable, type-correct spec is
resolved (possibly from an ancestor), get and set succeed. -/
theorem property_resolution_inherited :
    (∀ (inst : Inst) (n : String),
       get inst n = .error .unknownProperty ↔
         ∀ d ∈ chainDescs inst.type, ∀ sp ∈ d.property_specs, sp.name ≠ n) ∧
    (∀ (beh : Behavior) (inst : Inst) (n : String) (v : Value),
       set beh inst n v = .error .unknownProperty ↔
         ∀ d ∈ chainDescs inst.type, ∀ sp ∈ d.property_specs, sp.name ≠ n) ∧
    (∀ (nm : String) (p : TypeDescriptor) (ps : List PropertySpec)
       (ss : List String) (n : String),
       (ps.any (fun r => r.name == n)) = false →
       findSpec (.mk nm (some p) ps ss) n = findSpec p n) ∧
    (∀ (inst : Inst) (n : String) (v : Value) (sp : PropertySpec),
       findSpec inst.type n = some sp → sp.readable = true → sp.writable = true →
       v.typeOf = sp.value_type →
       (get inst n).isOk = true ∧ (set pureBeh inst n v).isOk = true) := by
  refine ⟨?_, ?_, ?_, ?_⟩
  · intro inst n
    rw [← findSpec_none_iff]
    rcases h : findSpec inst.type n with _ | sp
    · simp [get, h]
    · constructor
      · intro hget
        exfalso
        by_cases hr : sp.readable = true
        · simp [get, h, hr] at hget
        · simp [get, h, Bool.eq_false_iff.mpr hr] at hget
      · intro hnone
        simp at hnone
  · intro beh inst n v
    rw [← findSpec_none_iff]
    rcases h : findSpec inst.type n with _ | sp
    · simp [set, h]
    · constructor
      · intro hset
        exfalso
        by_cases hw : sp.writable = true
        · by_cases ht : v.typeOf = sp.value_type
          · by_cases he : (lookupProp inst.properties n).getD sp.default_value = v
            · rw [set_same beh inst n v sp h hw ht he] at hset
              cases hset
            · have hne : v ≠ (lookupProp inst.properties n).getD sp.default_value :=
                fun hv => he hv.symm
              rcases hem : emit beh { inst with properties := storeProp inst.properties n v }
                  (n ++ "-changed") v with e | ev
              · have hset2 : set beh inst n v = .error e := by
                  simp [set, h, hw, ht, hne, hem]
                rw [hset2] at hset
                injection hset with h3
                rcases emit_error_shape _ _ _ _ _ hem with ⟨m, hm⟩
                rw [h3] at hm
                cases hm
              · have hset2 : set beh inst n v =
                    .ok ({ inst with properties := storeProp inst.properties n v }, [ev]) := by
                  simp [set, h, hw, ht, hne, hem]
                rw [hset2] at hset
                cases hset
          · simp [set, h, hw, ht] at hset
        · simp [set, h, Bool.eq_false_iff.mpr hw] at hset
      · intro hnone
        simp at hnone
  · intro nm p ps ss n hsh
    rw [findSpec, findSpec, resolveProps, List.find?_append]
    have h1 : ps.find? (fun sp => sp.name == n) = none := by
      rw [List.find?_eq_none]
      intro x hx hb
      have : ps.any (fun r => r.name == n) = true := List.any_eq_true.mpr ⟨x, hx, hb⟩
      rw [hsh] at this
      cases this
    rw [h1]
    simp only [Option.none_or]
    apply find?_filter_of_imp
    intro x _ hpx
    have hxn : x.name = n := by simpa using hpx
    rw [hxn]
    simpa using hsh
  · intro inst n v sp h hr hw ht
    constructor
    · simp [get, h, hr, Except.isOk, Except.toBool]
    · exact set_pure_isOk inst n v sp h hw ht

theorem property_resolution_inherited_witness :
    (get ⟨my_derived_type, 1, [("value", .int 0), ("name", .str "")], [], 0⟩ "bogus" =
       .error .unknownProperty) ∧
    (findSpec my_derived_type "value" = findSpec my_object_type "value") ∧
    ((get ⟨my_derived_type, 1, [("value", .int 0), ("name", .str "")], [], 0⟩
        "value").isOk = true) ∧
    ((set pureBeh ⟨my_derived_type, 1, [("value", .int 0), ("name", .str "")], [], 0⟩
        "value" (.int 7)).isOk = true) := by
  refine ⟨?_, ?_, ?_, ?_⟩
  · exact (property_resolution_inherited.1
      ⟨my_derived_type, 1, [("value", .int 0), ("name", .str "")], [], 0⟩ "bogus").mpr
      (by decide)
  · exact property_resolution_inherited.2.2.1 "MyDerived" my_object_type [] []
      "value" rfl
  · exact (property_resolution_inherited.2.2.2
      ⟨my_derived_type, 1, [("value", .int 0), ("name", .str "")], [], 0⟩
      "value" (.int 7) value_spec rfl rfl rfl rfl).1
  · exact (property_resolution_inherited.2.2.2
      ⟨my_derived_type, 1, [("value", .int 0), ("name", .str "")], [], 0⟩
      "value" (.int 7) value_spec rfl rfl rfl rfl).2

theorem lookupProp_append_none (l1 l2 : List (String × Value)) (n : String)
    (h : ∀ e ∈ l1, (e.1 == n) = false) :
    lookupProp (l1 ++ l2) n = lookupProp l2 n := by
  rw [lookupProp, List.find?_append,
      List.find?_eq_none.mpr (fun x hx => by simp [h x hx]), Option.none_or]
  rfl

theorem lookupProp_defaults (l : List PropertySpec) (q : PropertySpec → Bool)
    (n : String) (sp : PropertySpec)
    (hfind : l.find? (fun s2 => s2.name == n) = some sp) (hq : q sp = true) :
    lookupProp ((l.filter q).map (fun s2 => (s2.name, s2.default_value))) n =
      some sp.default_value := by
  induction l with
  | nil => cases hfind
  | cons x l ih =>
      by_cases hx : (x.name == n) = true
      · rw [List.find?_cons_of_pos (p := fun s2 : PropertySpec => s2.name == n) _ hx] at hfind
        injection hfind with h2
        subst h2
        rw [List.filter_cons_of_pos hq]
        simp [lookupProp, hx]
      · rw [List.find?_cons_of_neg (p := fun s2 : PropertySpec => s2.name == n) _
            (by simpa using hx)] at hfind
        by_cases hqx : q x = true
        · rw [List.filter_cons_of_pos hqx]
          rw [List.map_cons]
          have hx2 : ((x.name, x.default_value).1 == n) = false := by simpa using hx
          calc lookupProp ((x.name, x.default_value) ::
                  (l.filter q).map (fun s2 => (s2.name, s2.default_value))) n
              = lookupProp ((l.filter q).map (fun s2 => (s2.name, s2.default_value))) n := by
                simp [lookupProp, hx2]
            _ = some sp.default_value := ih hfind
        · rw [List.filter_cons_of_neg (by simpa using hqx)]
          exact ih hfind

theorem get_ok (inst : Inst) (n : String) (sp : PropertySpec)
    (hfind : findSpec inst.type n = some sp) (hr : sp.readable = true) :
    get inst n = .ok ((lookupProp inst.properties n).getD sp.default_value) := by
  simp [get, hfind, hr]

theorem get_head (td : TypeDescriptor) (rc : Nat) (n : String) (v : Value)
    (rest : List (String × Value)) (subs : List (Nat × String)) (ni : Nat)
    (sp : PropertySpec) (hfind : findSpec td n = some sp) (hr : sp.readable = true) :
    get ⟨td, rc, (n, v) :: rest, subs, ni⟩ n = .ok v := by
  simp [get, hfind, hr, lookupProp]

/-- C7: for every type, property spec resolved for a name, and value of the
declared type, constructing an instance with that property preset and
immediately reading it back returns the same value. -/
theorem construct_get_round_trip :
    ∀ (td : TypeDescriptor) (n : String) (v : Value) (sp : PropertySpec),
      findSpec td n = some sp → sp.readable = true → v.typeOf = sp.value_type →
      ∃ inst : Inst, construct td [(n, v)] = .ok (inst, []) ∧ get inst n = .ok v := by
  intro td n v sp hfind hr ht
  have hall : ([(n, v)].all (fun e => (findSpec td e.1).isSome)) = true := by
    simp [List.all, hfind]
  refine ⟨⟨td, 1, (n, v) ::
      ((resolveProps td).filter
        (fun sp2 => sp2.writable && !([(n, v)].any (fun e => e.1 == sp2.name)))).map
        (fun sp2 => (sp2.name, sp2.default_value)), [], 0⟩, ?_, ?_⟩
  · rw [construct, if_pos hall]
    rfl
  · exact get_head td 1 n v _ [] 0 sp hfind hr

theorem construct_get_round_trip_witness :
    ∃ inst : Inst,
      construct my_object_type [("value", .int 5)] = .ok (inst, []) ∧
      get inst "value" = .ok (.int 5) := by
  exact construct_get_round_trip my_object_type "value" (.int 5) value_spec
    rfl rfl rfl

/-- C8: a successful construct yields an instance of the requested type with
reference count 1 and performs no emissions; construct fails with
UnknownProperty exactly when some initial key is absent from the resolved
spec set; and every writable resolved property not given an initial value is
stored at its spec default. -/
theorem construct_semantics :
    (∀ (td : TypeDescriptor) (inits : List (String × Value)) (inst : Inst)
       (evs : List EmitEvent), construct td inits = .ok (inst, evs) →
       refcount inst = 1 ∧ evs = [] ∧ inst.type = td) ∧
    (∀ (td : TypeDescriptor) (inits : List (String × Value)),
       construct td inits = .error .unknownProperty ↔
         ∃ e ∈ inits, findSpec td e.1 = none) ∧
    (∀ (td : TypeDescriptor) (inits : List (String × Value)) (inst : Inst)
       (evs : List EmitEvent) (n : String) (sp : PropertySpec),
       construct td inits = .ok (inst, evs) → findSpec td n = some sp →
       sp.writable = true → (inits.any (fun e => e.1 == n)) = false →
       lookupProp inst.properties n = some sp.default_value) := by
  refine ⟨?_, ?_, ?_⟩
  · intro td inits inst evs h
    rw [construct] at h
    by_cases hall : (inits.all (fun e => (findSpec td e.1).isSome)) = true
    · rw [if_pos hall] at h
      injection h with h2
      injection h2 with h3 h4
      subst h3
      exact ⟨rfl, h4.symm, rfl⟩
    · rw [if_neg (by simpa using hall)] at h
      cases h
  · intro td inits
    rw [construct]
    by_cases hall : (inits.all (fun e => (findSpec td e.1).isSome)) = true
    · rw [if_pos hall]
      constructor
      · intro h; cases h
      · rintro ⟨e, he, hnone⟩
        have := List.all_eq_true.mp hall e he
        rw [hnone] at this
        cases this
    · rw [if_neg (by simpa using hall)]
      constructor
      · intro _
        rcases List.all_eq_false.mp (Bool.eq_false_iff.mpr hall) with ⟨e, he, hb⟩
        refine ⟨e, he, ?_⟩
        rcases hf : findSpec td e.1 with _ | sp
        · rfl
        · simp [hf] at hb
      · intro _; rfl
  · intro td inits inst evs n sp h hfind hw hany
    rw [construct] at h
    by_cases hall : (inits.all (fun e => (findSpec td e.1).isSome)) = true
    · rw [if_pos hall] at h
      injection h with h2
      injection h2 with h3 _
      subst h3
      have hinits : ∀ e ∈ inits, (e.1 == n) = false := by
        intro e he
        simpa using List.any_eq_false.mp hany e he
      have hname : sp.name = n := by
        have := List.find?_some hfind
        simpa using this
      have hfind2 : (resolveProps td).find? (fun sp2 => sp2.name == n) = some sp := hfind
      have hq : (sp.writable && !(inits.any (fun e => e.1 == sp.name))) = true := by
        rw [hname, hw, hany]
        rfl
      show lookupProp (inits ++ _) n = some sp.default_value
      rw [lookupProp_append_none _ _ _ hinits]
      exact lookupProp_defaults (resolveProps td) _ n sp hfind2 hq
    · rw [if_neg (by simpa using hall)] at h
      cases h

theorem construct_semantics_witness :
    (∃ (inst : Inst) (evs : List EmitEvent),
       construct my_object_type [("value", .int 5)] = .ok (inst, evs) ∧
       refcount inst = 1 ∧ evs = [] ∧ inst.type = my_object_type ∧
       lookupProp inst.properties "name" = some (.str "")) ∧
    construct my_object_type [("bogus", .int 0)] = .error .unknownProperty := by
  constructor
  · refine ⟨⟨my_object_type, 1, [("value", .int 5), ("name", .str "")], [], 0⟩, [],
      rfl, ?_, rfl, ?_, ?_⟩
    · exact (construct_semantics.1 my_object_type [("value", .int 5)] _ _ rfl).1
    · exact (construct_semantics.1 my_object_type [("value", .int 5)] _ _ rfl).2.2
    · exact construct_semantics.2.2 my_object_type [("value", .int 5)] _ _
        "name" name_spec rfl rfl rfl rfl
  · exact (construct_semantics.2.1 my_object_type [("bogus", .int 0)]).mpr
      ⟨("bogus", .int 0), by simp, rfl⟩

/-- C4: increment and decrement are exactly set of the current value plus
one respectively minus one, so they inherit the change-detection semantics
of set; an object constructed with value 0 and incremented twice reads back
2 and triggers exactly 2 change-signal emissions. -/
theorem increment_decrement_semantics :
    (∀ (beh : Behavior) (inst : Inst),
       increment beh inst =
         (match get inst "value" with
          | .error e => .error e
          | .ok (.int i) => set beh inst "value" (.int (i + 1))
          | .ok (.str _) => .error .typeMismatch) ∧
       decrement beh inst =
         (match get inst "value" with
          | .error e => .error e
          | .ok (.int i) => set beh inst "value" (.int (i - 1))
          | .ok (.str _) => .error .typeMismatch)) ∧
    (∃ (r a b : Inst × List EmitEvent),
       construct my_object_type [("value", .int 0)] = .ok r ∧
       increment pureBeh r.1 = .ok a ∧
       increment pureBeh a.1 = .ok b ∧
       get b.1 "value" = .ok (.int 2) ∧
       a.2.length + b.2.length = 2) := by
  constructor
  · intro beh inst
    exact ⟨rfl, rfl⟩
  · refine ⟨(⟨my_object_type, 1, [("value", .int 0), ("name", .str "")], [], 0⟩, []),
      (⟨my_object_type, 1, [("value", .int 1), ("name", .str "")], [], 0⟩,
       [⟨"value-changed", .int 1, []⟩]),
      (⟨my_object_type, 1, [("value", .int 2), ("name", .str "")], [], 0⟩,
       [⟨"value-changed", .int 2, []⟩]), rfl, rfl, rfl, rfl, rfl⟩

theorem stress_object_good (i : Nat) :
    ∃ o : Inst, stress_object i = .ok o ∧ o.type = my_object_type ∧
      lookupProp o.properties "value" = some (.int (Int.ofNat i)) := by
  have h1 : new_with_value (Int.ofNat i) =
      .ok (⟨my_object_type, 1, [("value", .int (Int.ofNat i)), ("name", .str "")],
            [], 0⟩, []) := rfl
  by_cases hv : (Value.str ("Object #" ++ toString i)) = Value.str ""
  · refine ⟨⟨my_object_type, 1, [("value", .int (Int.ofNat i)), ("name", .str "")],
        [], 0⟩, ?_, rfl, rfl⟩
    have h2 : set_name pureBeh
        ⟨my_object_type, 1, [("value", .int (Int.ofNat i)), ("name", .str "")], [], 0⟩
        ("Object #" ++ toString i) =
        .ok (⟨my_object_type, 1, [("value", .int (Int.ofNat i)), ("name", .str "")],
              [], 0⟩, []) :=
      set_same pureBeh
        ⟨my_object_type, 1, [("value", .int (Int.ofNat i)), ("name", .str "")], [], 0⟩
        "name" (.str ("Object #" ++ toString i)) name_spec rfl rfl rfl hv.symm
    simp only [stress_object, h1, h2]
  · refine ⟨⟨my_object_type, 1,
        [("value", .int (Int.ofNat i)), ("name", .str ("Object #" ++ toString i))],
        [], 0⟩, ?_, rfl, rfl⟩
    have h2 := set_diff_pure
      ⟨my_object_type, 1, [("value", .int (Int.ofNat i)), ("name", .str "")], [], 0⟩
      "name" (.str ("Object #" ++ toString i)) name_spec rfl rfl rfl hv
    simp only [stress_object, h1, h2]
    rfl

theorem increment_good (o : Inst) (i : Int)
    (htype : o.type = my_object_type)
    (hval : lookupProp o.properties "value" = some (.int i)) :
    ∃ r : Inst × List EmitEvent, increment pureBeh o = .ok r ∧
      get_value r.1 = .ok (.int (i + 1)) := by
  have hfind : findSpec o.type "value" = some value_spec := by
    rw [htype]
    rfl
  have hget : get o "value" = .ok (.int i) := by
    rw [get_ok o "value" value_spec hfind rfl, hval]
    rfl
  have hne : (Value.int (i + 1)) ≠
      (lookupProp o.properties "value").getD value_spec.default_value := by
    rw [hval]
    intro hcon
    injection hcon with h2
    omega
  have hset := set_diff_pure o "value" (.int (i + 1)) value_spec hfind rfl rfl hne
  refine ⟨({ o with properties := storeProp o.properties "value" (.int (i + 1)) },
      [⟨"value" ++ "-changed", .int (i + 1),
        subscribersOf { o with properties := storeProp o.properties "value" (.int (i + 1)) }
          ("value" ++ "-changed")⟩]), ?_, ?_⟩
  · simp only [increment, hget]
    exact hset
  · have hfind2 : findSpec
        ({ o with properties := storeProp o.properties "value" (.int (i + 1)) } : Inst).type
        "value" = some value_spec := hfind
    show get { o with properties := storeProp o.properties "value" (.int (i + 1)) }
        "value" = .ok (.int (i + 1))
    rw [get_ok _ "value" value_spec hfind2 rfl]
    simp only [lookupProp_storeProp_same, Option.getD_some]

theorem create_objects_good (is : List Nat) :
    ∃ objs : List Inst, create_objects is = .ok objs ∧
      List.Forall₂ (fun i o => o.type = my_object_type ∧
        lookupProp o.properties "value" = some (.int (Int.ofNat i))) is objs := by
  induction is with
  | nil => exact ⟨[], rfl, List.Forall₂.nil⟩
  | cons i rest ih =>
      rcases stress_object_good i with ⟨o, ho, hot, hov⟩
      rcases ih with ⟨objs, hobjs, hfa⟩
      refine ⟨o :: objs, ?_, List.Forall₂.cons ⟨hot, hov⟩ hfa⟩
      simp only [create_objects, ho, hobjs]

theorem stress_loop_sum (is : List Nat) (objs : List Inst)
    (hfa : List.Forall₂ (fun i o => o.type = my_object_type ∧
      lookupProp o.properties "value" = some (.int (Int.ofNat i))) is objs) :
    ∀ acc : Int,
      stress_loop objs acc = .ok (acc + (is.map (fun i => Int.ofNat i + 1)).sum) := by
  induction hfa with
  | nil =>
      intro acc
      simp [stress_loop]
  | cons hio hrest ih =>
      intro acc
      rcases hio with ⟨hot, hov⟩
      rcases increment_good _ _ hot hov with ⟨r, hr, hrv⟩
      simp only [stress_loop, hr, hrv, ih, List.map_cons, List.sum_cons]
      rw [add_assoc]

theorem stress_test_eq (n : Nat) :
    stress_test n = .ok (((List.range n).map (fun i => Int.ofNat i + 1)).sum) := by
  rcases create_objects_good (List.range n) with ⟨objs, hobjs, hfa⟩
  have hloop := stress_loop_sum _ _ hfa 0
  simp only [stress_test, hobjs, hloop, zero_add]

theorem range_sum_formula (n : Nat) :
    2 * ((List.range n).map (fun i => Int.ofNat i + 1)).sum =
      Int.ofNat n * (Int.ofNat n + 1) := by
  induction n with
  | zero => simp
  | succ m ih =>
      rw [List.range_succ, List.map_append, List.sum_append]
      simp only [List.map_cons, List.map_nil, List.sum_cons, List.sum_nil, add_zero]
      rw [mul_add, ih]
      have hsucc : Int.ofNat (m + 1) = Int.ofNat m + 1 := rfl
      rw [hsucc]
      ring

/-- C10: the stress test over 1000 objects with initial values 0 to 999,
incrementing each once, totals 500500; and for every initial value i the
created object incremented once reads back i + 1. -/
theorem stress_test_total :
    stress_test 1000 = .ok 500500 ∧
    (∀ i : Nat, ∃ (o : Inst) (r : Inst × List EmitEvent),
       stress_object i = .ok o ∧ increment pureBeh o = .ok r ∧
       get_value r.1 = .ok (.int (Int.ofNat i + 1))) := by
  constructor
  · rw [stress_test_eq 1000]
    have h := range_sum_formula 1000
    have h2 : (Int.ofNat 1000 * (Int.ofNat 1000 + 1) : Int) = 1001000 := by decide
    rw [h2] at h
    have hsum : ((List.range 1000).map (fun i => Int.ofNat i + 1)).sum = 500500 := by
      omega
    rw [hsum]
  · intro i
    rcases stress_object_good i with ⟨o, ho, hot, hov⟩
    rcases increment_good o (Int.ofNat i) hot hov with ⟨r, hr, hrv⟩
    exact ⟨o, r, ho, hr, hrv⟩

end ObjRuntime
